import Mathlib

/-!
Verification development for the aiodocker-registry repository.

The development shallowly embeds the parts of the code that the checked
properties are about:

* `stats.py` — the blob-group key (`_get_blob_group_key`), the
  parent-inference and unique-size computation (`_get_blob_group_info`),
  the per-group aggregation loop of `get_stats` (instance naming, the
  parent-chain walk, the treemap calls), and the concurrent
  tag-job / blob-job pipeline (`_process_image_tag` / `_process_blob`)
  as a small-step trace semantics.
* `registry_client.py` — the `_Pager.__anext__` decision logic and the
  two `get_blob_info` implementations.
* `draw_chart.py` — the arity of `get_treemap`.

Modelling conventions: Python dicts keyed by strings become association
lists or functions `String → _`; Python `None` becomes `Option.none`;
exceptions become `Option`/`Except` results; SHA-256 is modelled as an
injective function of its input (collisions are assumed negligible), so a
blob-group key is represented by the joined string that the code hashes.
-/

/-! ## Python list indexing

`pyGet l i` models Python's `l[i]`: a negative index wraps around once
(`l[-1]` is the last element); an index that is still out of range raises
`IndexError`, modelled as `none`. -/

def pyGet {α : Type} (l : List α) (i : Int) : Option α :=
  if 0 ≤ i then l[i.toNat]?
  else if 0 ≤ i + l.length then l[(i + l.length).toNat]?
  else none

/-! ## stats.py: the blob-group key

Source (stats.py, lines 34-36):

    # ordering is important
    def _get_blob_group_key(blob_group: List[str]):
        return hashlib.sha256(".".join(blob_group).encode('utf-8')).digest()

`joinDot` is `".".join(...)`.  The SHA-256 digest is modelled as the
joined string itself: the hash is injective up to negligible collisions,
so equality of modelled keys coincides with equality of real keys.  (The
real digest is a 32-byte value and therefore always truthy in Python; the
modelled key of `[]` is `""`, but no truthiness test is performed on
modelled keys anywhere below.) -/

def joinDot : List String → String
  | [] => ""
  | [x] => x
  | x :: xs => x ++ "." ++ joinDot xs

def _get_blob_group_key (blob_group : List String) : String :=
  joinDot blob_group

/-- Wellformedness of a digest string as actually produced by a registry
(`sha256:<hex>`): nonempty and not containing the `.` separator that
`_get_blob_group_key` joins with. -/
def cleanDigest (s : String) : Bool :=
  !s.data.isEmpty && !(s.data.contains '.')

/-- Character-level join with the `.` separator, mirroring `joinDot` on
the underlying character lists. -/
def charJoin : List (List Char) → List Char
  | [] => []
  | [x] => x
  | x :: xs => x ++ '.' :: charJoin xs

/-! ## stats.py: registry state seen by `_get_blob_group_info`

`RepoStats._blob_groups` maps a group key to `{'blobs': [...], 'size':,
'images': {...}}`; only the `'blobs'` list is read by
`_get_blob_group_info`, so a registered group is modelled as a
`(key, blobs)` pair.  `RepoStats._blob_to_image_tags[d]["info"]["size"]`
is modelled by `sizes d`: `none` models an entry whose `info` is still
`None` (subscripting it raises `TypeError`). -/

structure StatsState where
  blob_groups : List (String × List String)
  sizes : String → Option Nat

def lookupGroup (st : StatsState) (k : String) : Option (List String) :=
  (st.blob_groups.find? fun p => p.1 == k).map Prod.snd

/-! ## stats.py: `_get_blob_group_info` (lines 78-97)

    unique_size = 0
    blob_group = self._blob_groups[blob_group_key]
    for end_idx in range(len(blob_group['blobs']), -1, -1):
        parent_blob_group_key = _get_blob_group_key(blob_group['blobs'][:end_idx])
        if parent_blob_group_key and parent_blob_group_key != blob_group_key \
                and parent_blob_group_key in self._blob_groups:
            return unique_size, parent_blob_group_key
        else:
            blob_sum = blob_group['blobs'][end_idx - 1]
            unique_size += self._blob_to_image_tags[blob_sum]["info"]["size"]
    return unique_size, None

`infoLoop st bgk bs end_idx acc` is the loop body from iteration
`end_idx` downwards with `unique_size = acc` so far.  The truthiness test
`parent_blob_group_key and ...` is always true for a real SHA-256 digest
(32 nonzero-length bytes) and is therefore dropped.  Note that at
`end_idx = 0` the Python subscript `blobs[end_idx - 1]` is `blobs[-1]`,
the *last* element.  A failed size lookup (`info` is `None`, a
`TypeError` in Python) yields `none`. -/

def infoLoop (st : StatsState) (bgk : String) (bs : List String) :
    Nat → Nat → Option (Nat × Option String)
  | 0, acc =>
    let pk := _get_blob_group_key (bs.take 0)
    if pk != bgk && (lookupGroup st pk).isSome then
      some (acc, some pk)
    else
      -- blobs[0 - 1] is blobs[-1] in Python: the last element
      match pyGet bs (-1 : Int) with
      | none => none
      | some b =>
        match st.sizes b with
        | none => none
        | some s => some (acc + s, none)
  | e + 1, acc =>
    let pk := _get_blob_group_key (bs.take (e + 1))
    if pk != bgk && (lookupGroup st pk).isSome then
      some (acc, some pk)
    else
      -- blobs[(e + 1) - 1] = blobs[e]
      match pyGet bs (e : Int) with
      | none => none
      | some b =>
        match st.sizes b with
        | none => none
        | some s => infoLoop st bgk bs e (acc + s)

/-- Model of `RepoStats._get_blob_group_info`.  An unregistered argument
key would autovivify a `{'blobs': None, ...}` entry and then raise
`TypeError` on `len(None)`; this is modelled as `none`. -/
def _get_blob_group_info (st : StatsState) (blob_group_key : String) :
    Option (Nat × Option String) :=
  match lookupGroup st blob_group_key with
  | none => none
  | some blobs => infoLoop st blob_group_key blobs blobs.length 0

/-- Sum of the recorded sizes of a list of digests (missing entries count
as 0; the theorems using it always require the entries to be present). -/
def sizeSum (st : StatsState) (l : List String) : Nat :=
  (l.map fun b => (st.sizes b).getD 0).sum

/-- Length of the parent chain of a group, following
`_get_blob_group_info` parents; `fuel` bounds the walk. -/
def parentChainLen (st : StatsState) : Nat → String → Nat
  | 0, _ => 0
  | fuel + 1, k =>
    match _get_blob_group_info st k with
    | some (_, some pk) => 1 + parentChainLen st fuel pk
    | _ => 0

/-! ## Example registry states used as concrete inputs -/

/-- Registry holding the single group `[A, B]` with sizes `A = 10`,
`B = 20` and no registered proper sub-prefix of it. -/
def exStAB : StatsState where
  blob_groups := [(_get_blob_group_key ["A", "B"], ["A", "B"])]
  sizes := fun d => if d = "A" then some 10 else if d = "B" then some 20 else none

/-- Registry holding the chain `[A]` ← `[A, B]` ← `[A, B, C]` with sizes
`A = 10`, `B = 20`, `C = 30`. -/
def exSt3 : StatsState where
  blob_groups :=
    [(_get_blob_group_key ["A", "B", "C"], ["A", "B", "C"]),
     (_get_blob_group_key ["A", "B"], ["A", "B"]),
     (_get_blob_group_key ["A"], ["A"])]
  sizes := fun d =>
    if d = "A" then some 10 else if d = "B" then some 20
    else if d = "C" then some 30 else none

/-! ## stats.py: `_BlobGroupInstanceHelper` (lines 21-28)

    self._instances = defaultdict(int)
    def new_instance(self, blob_group_name):
        g_inst = self._instances[blob_group_name]
        self._instances[blob_group_name] += 1
        return f"{blob_group_name}_{g_inst}"
-/

structure InstanceHelper where
  instances : List (String × Nat)
  deriving DecidableEq, Repr

def instGet (h : InstanceHelper) (name : String) : Nat :=
  (((h.instances.find? fun p => p.1 == name).map Prod.snd).getD 0)

def new_instance (h : InstanceHelper) (blob_group_name : String) :
    String × InstanceHelper :=
  let g := instGet h blob_group_name
  (blob_group_name ++ "_" ++ toString g,
   ⟨(blob_group_name, g + 1) ::
      (h.instances.filter fun p => !(p.1 == blob_group_name))⟩)

/-! ## stats.py: the per-group body of the `get_stats` aggregation loop
(lines 130-143)

    blob_group_unique_size, parent_blob_group_key = self._get_blob_group_info(blob_group_key)
    image_unique_size += blob_group_unique_size
    orig_blob_group_name = blob_group_name = g_instances.new_instance(self._get_blob_group_name(blob_group_key))
    while parent_blob_group_key:
        parent_blob_group_name = g_instances.new_instance(self._get_blob_group_name(parent_blob_group_key))
        blob_group_unique_size, parent_blob_group_key = self._get_blob_group_info(parent_blob_group_key)
        img_data.append((parent_blob_group_name, blob_group_name, blob_group_unique_size))
        blob_group_name = parent_blob_group_name
        break  # TODO: find better way to show large multi-level trees
    img_data.append((orig_blob_group_name, "root", blob_group_unique_size))

Because of the `break`, the `while` executes its body at most once, so it
is modelled as a single conditional on the parent key.  The display text
`self._get_blob_group_name(key)` (a join over the group's image:tag-set
map, irrelevant to the checked properties) is supplied as an abstract
`nameOf` function.  Note that after the body ran, the local
`blob_group_unique_size` holds the *parent's* unique size, and this is the
value that the final `"root"` row receives.  A row is
`(name, parent-or-None, size)` as handed to the treemap. -/

structure GroupEmit where
  chainEdges : List (String × Option String × Nat)
  rootEdge : String × Option String × Nat
  usize : Nat
  gh : InstanceHelper
  deriving DecidableEq, Repr

def processGroup (st : StatsState) (nameOf : String → String)
    (gh : InstanceHelper) (k : String) : Option GroupEmit :=
  match _get_blob_group_info st k with
  | none => none
  | some (usize, pk0) =>
    let p := new_instance gh (nameOf k)
    match pk0 with
    | none => some ⟨[], (p.1, some "root", usize), usize, p.2⟩
    | some pk =>
      let q := new_instance p.2 (nameOf pk)
      match _get_blob_group_info st pk with
      | none => none
      | some (usize2, _) =>
        some ⟨[(q.1, some p.1, usize2)], (p.1, some "root", usize2), usize, q.2⟩

/-- Folds `processGroup` over one image's group keys, threading the
instance helper and accumulating `image_unique_size` and `img_data`; the
final `("root", None, image_unique_size)` row of stats.py line 146 is
appended at the end. -/
def buildImgDataGo (st : StatsState) (nameOf : String → String) :
    List String → InstanceHelper → Nat → List (String × Option String × Nat) →
    Option (List (String × Option String × Nat) × Nat × InstanceHelper)
  | [], gh, acc, rows => some (rows ++ [("root", none, acc)], acc, gh)
  | k :: ks, gh, acc, rows =>
    match processGroup st nameOf gh k with
    | none => none
    | some g =>
      buildImgDataGo st nameOf ks g.gh (acc + g.usize)
        (rows ++ g.chainEdges ++ [g.rootEdge])

def buildImgData (st : StatsState) (nameOf : String → String)
    (gh : InstanceHelper) (gkeys : List String) :
    Option (List (String × Option String × Nat) × Nat × InstanceHelper) :=
  buildImgDataGo st nameOf gkeys gh 0 []

/-! ## draw_chart.py: `get_treemap` arity, and the rendering step of
`get_stats`

draw_chart.py line 31 defines

    def get_treemap(description: List[Tuple[str, str]], data: List[Tuple]):

with exactly two parameters and no defaults or varargs, while stats.py
lines 147 and 153 call it as

    get_treemap(description, img_data, os.path.join(root_path, f"{image_name}.html"), False)
    get_treemap(description, g_data, os.path.join(root_path, "root.html"), True)

with four positional arguments.  A Python call whose positional argument
count differs from the parameter count raises `TypeError`. -/

inductive PyErr where
  | typeError
  | infoTypeError
  deriving DecidableEq, Repr

def get_treemap_param_count : Nat := 2

def call_get_treemap (arg_count : Nat) : Except PyErr String :=
  if arg_count = get_treemap_param_count then Except.ok "<treemap html>"
  else Except.error PyErr.typeError

/-- The reporting phase of `get_stats` (lines 125-153): for each image,
build `img_data` and call `get_treemap` with four arguments; after the
loop, the root call, also with four arguments.  An exception anywhere
aborts the phase. -/
def get_stats_render (st : StatsState) (nameOf : String → String) :
    List (String × List String) → InstanceHelper → Except PyErr Unit
  | [], _ =>
    match call_get_treemap 4 with
    | Except.error e => Except.error e
    | Except.ok _ => Except.ok ()
  | (_, gkeys) :: rest, gh =>
    match buildImgData st nameOf gh gkeys with
    | none => Except.error PyErr.infoTypeError
    | some r =>
      match call_get_treemap 4 with
      | Except.error e => Except.error e
      | Except.ok _ => get_stats_render st nameOf rest r.2.2

/-! ## stats.py: manifest layer extraction in `_process_image_tag`
(lines 187-194)

    if manifest['schemaVersion'] == 1:
        layers = list(reversed([layer for layer in manifest['fsLayers']]))
        blob_group = [layer['blobSum'] for layer in layers]
    else:
        assert manifest['schemaVersion'] == 2
        layers = [layer for layer in manifest['layers']]
        blob_group = [layer['digest'] for layer in layers]
-/

structure V1Layer where
  blobSum : String
  deriving DecidableEq, Repr

structure V2Layer where
  digest : String
  size : Nat
  deriving DecidableEq, Repr

inductive PyManifest where
  | v1 (fsLayers : List V1Layer)
  | v2 (layers : List V2Layer)
  deriving DecidableEq, Repr

/-- The ordered digest list that `_process_image_tag` feeds to
`_get_blob_group_key` and the group registry. -/
def manifest_blob_group : PyManifest → List String
  | .v1 fs => fs.reverse.map V1Layer.blobSum
  | .v2 ls => ls.map V2Layer.digest

/-- Modelled from the spec: the manifest's raw layer-digest order as
declared by the registry API, before any normalization. -/
def manifest_raw_digests : PyManifest → List String
  | .v1 fs => fs.map V1Layer.blobSum
  | .v2 ls => ls.map V2Layer.digest

/-! ## registry_client.py: the two `get_blob_info` implementations

`RegistryClient.get_blob_info` (lines 105-130) issues a HEAD request for
the blob; if a `Location` header points at an S3 host it HEADs the S3
object, otherwise it GETs the blob and reads `Content-Length` /
`Last-Modified`.  The network responses are supplied as an environment;
on every path the returned dict carries a `size` and a `modified` entry.
`S3RegistryClient.get_blob_info` (lines 213-214) is

    async def get_blob_info(self, image_name: str, blob_sum: str):
        pass

whose body returns `None`. -/

structure BlobInfoRec where
  size : Nat
  modified : Nat
  s3location : Option (String × String × String)
  deriving DecidableEq, Repr

structure UrlRec where
  host : String
  path : String
  deriving DecidableEq, Repr

structure HeadObjectResp where
  contentLength : Nat
  lastModified : Nat
  deriving DecidableEq, Repr

structure BlobFetchEnv where
  headLocation : Option UrlRec
  s3HeadObject : String → String → HeadObjectResp
  getContentLength : Nat
  getLastModified : Nat

namespace RegistryClient

def get_blob_info (env : BlobFetchEnv) (image_name blob_sum : String) :
    Option BlobInfoRec :=
  let fallback : BlobInfoRec :=
    ⟨env.getContentLength, env.getLastModified, none⟩
  match env.headLocation with
  | some loc =>
    if loc.host.startsWith "s3-" && loc.host.endsWith ".amazonaws.com" then
      -- region = location.host[3:].split(".", 1)[0]
      let region := (((loc.host.drop 3).splitOn ".").headD "")
      -- bucket, key = yarl.URL(location).path[1:].split("/", 1)
      let parts := (loc.path.drop 1).splitOn "/"
      let bucket := parts.headD ""
      let key := String.intercalate "/" parts.tail
      let resp := env.s3HeadObject bucket key
      some ⟨resp.contentLength, resp.lastModified, some (region, bucket, key)⟩
    else some fallback
  | none => some fallback

end RegistryClient

namespace S3RegistryClient

def get_blob_info (image_name blob_sum : String) : Option BlobInfoRec :=
  none

end S3RegistryClient

/-! ## registry_client.py: `_Pager.__anext__` (lines 51-65)

    try:
        errors = self._batch.get('errors')
        if errors and errors[0].get('code') == 'NAME_UNKNOWN' and self._url.path.endswith('/tags/list'):
            raise StopAsyncIteration
        return self._batch[self._response_key].pop(0)
    except IndexError:
        raise StopAsyncIteration

The decision taken on a fetched page body is modelled on a `PageBatch`:
`errors` is the optional `errors` list (each entry's optional `code`
field), `items` is the value under the pager's `response_key` (`none`
models a missing key, whose subscript raises `KeyError` — *not* caught by
the `except IndexError`).  `pop(0)` on an empty list raises `IndexError`,
caught and turned into `StopAsyncIteration`. -/

/-- Python's `str.endswith`: the final characters of `s` equal
`suffix`.  (Defined on the character lists so that it evaluates by
kernel reduction.) -/
def pyEndsWith (s sfx : String) : Bool :=
  (s.data.reverse.take sfx.data.length) == sfx.data.reverse

structure ErrorEntry where
  code : Option String
  deriving DecidableEq, Repr

structure PageBatch where
  errors : List ErrorEntry
  items : Option (List String)
  deriving DecidableEq, Repr

inductive AnextOutcome where
  | yield (item : String) (remaining : List String)
  | stopIteration
  | keyError
  deriving DecidableEq, Repr

def popFirstItem (batch : PageBatch) : AnextOutcome :=
  match batch.items with
  | none => AnextOutcome.keyError
  | some [] => AnextOutcome.stopIteration
  | some (x :: xs) => AnextOutcome.yield x xs

def pagerAnext (urlPath : String) (batch : PageBatch) : AnextOutcome :=
  match batch.errors with
  | [] => popFirstItem batch
  | e :: _ =>
    if e.code == some "NAME_UNKNOWN" && pyEndsWith urlPath "/tags/list" then
      AnextOutcome.stopIteration
    else popFirstItem batch

/-! ## stats.py: the concurrent blob pipeline as a trace semantics

`_process_image_tag` (per layer, lines 205-219) and `_process_blob`
(lines 155-167) interact through the shared state
`_blob_to_image_tags[d]["info"]`, `_inprogress_blobs`, the blob pool
queue, and `_total_blob_size`.  Between two awaits a coroutine runs
atomically, so each of the following is one atomic step:

* `tagLayerV1 d` — one layer iteration of a schema-1 tag job:

      if not blob_entry["info"] and blob_sum not in self._inprogress_blobs:
          self._inprogress_blobs.add(blob_sum)
          await blob_pool.push(image_name, blob_sum)

* `tagLayerV2 d sz` — one layer iteration of a schema-2 tag job:

      if not blob_entry["info"]:
          self._total_blob_size += layer["size"]
          self._blob_to_image_tags[blob_sum]["info"] = layer

* `startFetch d` — a queued `_process_blob` job reaches
  `await self._client.get_blob_info(...)` (the shelf cache is absent:
  `shelf_path` unset); the instrumentation counter `fetches d` counts
  these invocations of the metadata source;
* `fetchOk d sz` — the fetch returns: `info` is assigned, the size added
  to the total, and `finally` removes `d` from `_inprogress_blobs`;
* `fetchFail d` — the fetch raises: only the `finally` clause runs.

`writes d` counts assignments to `_blob_to_image_tags[d]["info"]` and
`adds d` the additions of `d`'s size to `_total_blob_size`.  Steps whose
guard does not hold (e.g. a fetch completion with nothing in flight) are
no-ops, so every real interleaving is one of these traces. -/

inductive ScanAction where
  | tagLayerV1 (d : String)
  | tagLayerV2 (d : String) (sz : Nat)
  | startFetch (d : String)
  | fetchOk (d : String) (sz : Nat)
  | fetchFail (d : String)
  deriving DecidableEq, Repr

structure ScanState where
  info : String → Option Nat
  inprog : String → Bool
  queued : String → Nat
  inflight : String → Nat
  fetches : String → Nat
  writes : String → Nat
  adds : String → Nat
  total : Nat

def fbump (f : String → Nat) (k : String) : String → Nat :=
  fun x => if x = k then f x + 1 else f x

def fdec (f : String → Nat) (k : String) : String → Nat :=
  fun x => if x = k then f x - 1 else f x

def fsetB (f : String → Bool) (k : String) (v : Bool) : String → Bool :=
  fun x => if x = k then v else f x

def fsetI (f : String → Option Nat) (k : String) (v : Option Nat) :
    String → Option Nat :=
  fun x => if x = k then v else f x

def scanInit : ScanState :=
  ⟨fun _ => none, fun _ => false, fun _ => 0, fun _ => 0,
   fun _ => 0, fun _ => 0, fun _ => 0, 0⟩

def step (s : ScanState) : ScanAction → ScanState
  | .tagLayerV1 d =>
    if (s.info d).isNone && !(s.inprog d) then
      { s with inprog := fsetB s.inprog d true, queued := fbump s.queued d }
    else s
  | .tagLayerV2 d sz =>
    if (s.info d).isNone then
      { s with info := fsetI s.info d (some sz), total := s.total + sz,
               writes := fbump s.writes d, adds := fbump s.adds d }
    else s
  | .startFetch d =>
    if s.queued d != 0 then
      { s with queued := fdec s.queued d, inflight := fbump s.inflight d,
               fetches := fbump s.fetches d }
    else s
  | .fetchOk d sz =>
    if s.inflight d != 0 then
      { s with inflight := fdec s.inflight d, info := fsetI s.info d (some sz),
               total := s.total + sz, inprog := fsetB s.inprog d false,
               writes := fbump s.writes d, adds := fbump s.adds d }
    else s
  | .fetchFail d =>
    if s.inflight d != 0 then
      { s with inflight := fdec s.inflight d, inprog := fsetB s.inprog d false }
    else s

def runTrace (t : List ScanAction) : ScanState :=
  t.foldl step scanInit

/-- Trace containing a schema-1 tag step for `d`, refuting pure-schema
hypotheses on membership checks. -/
def hasTagV1For (d : String) : ScanAction → Bool
  | .tagLayerV1 d' => d' == d
  | _ => false

def hasTagV2For (d : String) : ScanAction → Bool
  | .tagLayerV2 d' _ => d' == d
  | _ => false

/-! ## Concrete traces used as counterexamples and witnesses -/

/-- Failed fetch for `d`, then a second tag referencing `d` retriggers a
fetch: two invocations of `get_blob_info` for one digest. -/
def traceRefetch : List ScanAction :=
  [ScanAction.tagLayerV1 "d", ScanAction.startFetch "d",
   ScanAction.fetchFail "d", ScanAction.tagLayerV1 "d",
   ScanAction.startFetch "d"]

/-- While a schema-1-triggered fetch for `d` is in flight, a schema-2
manifest populates `info` directly; the fetch then overwrites it and the
30-byte blob is counted twice. -/
def traceMixed : List ScanAction :=
  [ScanAction.tagLayerV1 "d", ScanAction.startFetch "d",
   ScanAction.tagLayerV2 "d" 30, ScanAction.fetchOk "d" 30]

/-- A plain successful single-fetch trace. -/
def traceSimple : List ScanAction :=
  [ScanAction.tagLayerV1 "x", ScanAction.startFetch "x",
   ScanAction.fetchOk "x" 7]

/-- A schema-2-only trace referencing `x` twice. -/
def traceV2Twice : List ScanAction :=
  [ScanAction.tagLayerV2 "x" 9, ScanAction.tagLayerV2 "x" 9]

/-! ## Invariants of the trace semantics (used for C4 and C5) -/

/-- The in-progress mark is held exactly while a job for the digest is
queued or its fetch is in flight, and never by more than one job. -/
def SingleJob (s : ScanState) (d : String) : Prop :=
  s.queued d + s.inflight d = (if s.inprog d then 1 else 0)

/-- No-failed-fetch invariant: while `info` is unset every started fetch
is still in flight, and at most one job (queued or started) ever existed. -/
def NoFailFetchInv (s : ScanState) (d : String) : Prop :=
  SingleJob s d
    ∧ ((s.info d).isNone = true → s.fetches d = s.inflight d)
    ∧ s.queued d + s.fetches d ≤ 1

/-- Schema-1-only invariant for digest `d`: while `info` is unset nothing
was written, and writes + pending jobs never exceed one. -/
def V1OnlyInv (s : ScanState) (d : String) : Prop :=
  SingleJob s d
    ∧ ((s.info d).isNone = true → s.writes d = 0)
    ∧ s.writes d + s.queued d + s.inflight d ≤ 1

/-- Schema-2-only invariant for digest `d`: no blob job ever exists, and
`info` is written at most once, by the first schema-2 layer step. -/
def V2OnlyInv (s : ScanState) (d : String) : Prop :=
  s.queued d = 0 ∧ s.inflight d = 0
    ∧ ((s.info d).isNone = true → s.writes d = 0)
    ∧ s.writes d ≤ 1

/-! # Theorems -/

/-- C1: for a registered group `[A, B]` with sizes `A = 10`, `B = 20` and
no registered proper sub-prefix, `_get_blob_group_info` indeed reports no
parent, but its unique size is 50, not the claimed 30: the `end_idx = 0`
iteration of the loop reads `blobs[end_idx - 1] = blobs[-1]` — the *last*
digest — and adds its size a second time.  The spec's "sum of all its
digests' sizes, each digest counted once" is clearly the intent and the
wrap-around subscript a slip, so this is evaluated as a code bug at the
failing input. -/
theorem c1_parentless_group_double_counts_last_blob :
    _get_blob_group_info exStAB (_get_blob_group_key ["A", "B"])
      = some (50, none) := by decide

/-- C3 counterexample: the group key is SHA-256 of the digests joined
with `"."`, and joining is ambiguous: the distinct sequences `["a.b"]`
and `["a", "b"]` produce the identical joined string (hence the identical
real SHA-256 input and digest), refuting "equal keys iff equal
sequences" for arbitrary digest strings. -/
theorem c3_key_join_collision :
    _get_blob_group_key ["a.b"] = _get_blob_group_key ["a", "b"]
      ∧ ["a.b"] ≠ ["a", "b"] := by decide

/-- C7 counterexample: for a schema-2 manifest the blob-group order is
the manifest's `layers` order unchanged, not reversed: on layers
`[L1, L2]` the grouped list differs from the reversed raw list. -/
theorem c7_v2_not_reversed :
    manifest_blob_group (PyManifest.v2 [⟨"L1", 1⟩, ⟨"L2", 2⟩])
      ≠ (manifest_raw_digests (PyManifest.v2 [⟨"L1", 1⟩, ⟨"L2", 2⟩])).reverse := by
  decide

/-- C7 as amended: only schema-1 manifests have their raw `fsLayers`
order reversed before grouping; schema-2 manifests contribute their
`layers` digests in the raw declared order. -/
theorem c7_layer_order (fs : List V1Layer) (ls : List V2Layer) :
    manifest_blob_group (PyManifest.v1 fs)
        = (manifest_raw_digests (PyManifest.v1 fs)).reverse
      ∧ manifest_blob_group (PyManifest.v2 ls)
        = manifest_raw_digests (PyManifest.v2 ls) := by
  refine ⟨?_, rfl⟩
  simp [manifest_blob_group, manifest_raw_digests]

/-- C8: `S3RegistryClient.get_blob_info` is an unimplemented stub whose
body is `pass`: it returns `None` and in particular no record with a
`size` and a `modified` field, unlike `RegistryClient.get_blob_info`;
the caller `_process_blob` subscripts the result and would raise
`TypeError`. -/
theorem c8_s3_get_blob_info_is_stub :
    S3RegistryClient.get_blob_info "app" "sha256:0123" = none := rfl

/-- C4 counterexample: in the trace where the single fetch for digest
`d` fails, the `finally` clause removes `d` from `_inprogress_blobs`
while its `info` is still unset, so a later schema-1 tag job referencing
`d` pushes a second blob job: `get_blob_info` is invoked twice for `d`
within one scan, refuting "at most once ... including jobs that fail". -/
theorem c4_refetch_after_failed_fetch :
    (runTrace traceRefetch).fetches "d" = 2 := by decide

/-- C5 counterexample: with a schema-1-triggered fetch for `d` in flight,
a schema-2 tag job populates `info` directly; the completing fetch then
assigns `info` a second time and adds the size to the running total a
second time: two writes, and a total of 60 for one 30-byte blob. -/
theorem c5_mixed_schema_double_write :
    (runTrace traceMixed).writes "d" = 2
      ∧ (runTrace traceMixed).adds "d" = 2
      ∧ (runTrace traceMixed).total = 60 := by decide

/-- C6 counterexample: with the registered chain `[A] ← [A,B] ← [A,B,C]`,
the parent chain of `[A,B,C]` has two edges, but the aggregation loop of
`get_stats` emits exactly one chain-edge triple for it: the `while` walk
ends in an unconditional `break` after the first edge. -/
theorem c6_chain_walk_truncated :
    parentChainLen exSt3 3 (_get_blob_group_key ["A", "B", "C"]) = 2
      ∧ ((processGroup exSt3 (fun n => n) ⟨[]⟩
            (_get_blob_group_key ["A", "B", "C"])).map
          fun g => g.chainEdges.length) = some 1 := by decide

/-! ### C2: parent inference for a group with a registered proper sub-run -/

lemma pyGet_nat {α : Type} (l : List α) (n : Nat) : pyGet l (n : Int) = l[n]? := by
  simp [pyGet]

/-- The loop returns as soon as the candidate key at the current
`end_idx` is a registered key different from the group's own. -/
lemma infoLoop_stop (st : StatsState) (bgk : String) (bs : List String) (L : Nat)
    (hstop : ((_get_blob_group_key (bs.take L) != bgk)
        && (lookupGroup st (_get_blob_group_key (bs.take L))).isSome) = true)
    (acc : Nat) :
    infoLoop st bgk bs L acc
      = some (acc, some (_get_blob_group_key (bs.take L))) := by
  cases L with
  | zero =>
    simp only [infoLoop]
    rw [hstop]
    simp
  | succ e =>
    simp only [infoLoop]
    rw [hstop]
    simp

/-- Walking the loop from `end_idx = L + c` down to the stopping index
`L` accumulates exactly the sizes of the digests `bs[L], ..., bs[L+c-1]`,
each once. -/
lemma infoLoop_walk (st : StatsState) (bgk : String) (bs : List String) (L : Nat)
    (hstop : ((_get_blob_group_key (bs.take L) != bgk)
        && (lookupGroup st (_get_blob_group_key (bs.take L))).isSome) = true) :
    ∀ (c : Nat) (acc : Nat), L + c ≤ bs.length →
      (∀ k, L < k → k ≤ L + c →
        ((_get_blob_group_key (bs.take k) != bgk)
          && (lookupGroup st (_get_blob_group_key (bs.take k))).isSome) = false) →
      (∀ b ∈ (bs.drop L).take c, (st.sizes b).isSome = true) →
      infoLoop st bgk bs (L + c) acc
        = some (acc + sizeSum st ((bs.drop L).take c),
                some (_get_blob_group_key (bs.take L))) := by
  intro c
  induction c with
  | zero =>
    intro acc _ _ _
    simpa [sizeSum] using infoLoop_stop st bgk bs L hstop acc
  | succ m ih =>
    intro acc hlen hmid hsz
    have hLm : L + m < bs.length := by omega
    have hcond := hmid (L + m + 1) (by omega) (by omega)
    have hstep : L + (m + 1) = (L + m) + 1 := by omega
    rw [hstep]
    simp only [infoLoop]
    rw [hcond]
    simp only [Bool.false_eq_true, if_false]
    have hget : bs[L + m]? = some bs[L + m] := List.getElem?_eq_getElem hLm
    rw [pyGet_nat, hget]
    have hdm : ((bs.drop L).take (m + 1))[m]? = some bs[L + m] := by
      rw [List.getElem?_take]
      rw [if_pos (by omega : m < m + 1), List.getElem?_drop, hget]
    have hmem : bs[L + m] ∈ (bs.drop L).take (m + 1) := List.getElem?_mem hdm
    have hsome := hsz _ hmem
    obtain ⟨s, hs⟩ := Option.isSome_iff_exists.mp hsome
    dsimp only
    rw [hs]
    dsimp only
    have ihres := ih (acc + s) (by omega)
      (fun k hk1 hk2 => hmid k hk1 (by omega))
      (fun b hb => hsz b (by
        have hsub : (bs.drop L).take m ⊆ (bs.drop L).take (m + 1) := by
          rw [List.take_succ]
          exact List.subset_append_left _ _
        exact hsub hb))
    rw [ihres]
    congr 2
    have htake : (bs.drop L).take (m + 1)
        = (bs.drop L).take m ++ ((bs.drop L)[m]?).toList := List.take_succ
    have hdm2 : (bs.drop L)[m]? = some bs[L + m] := by
      rw [List.getElem?_drop, hget]
    rw [htake, hdm2]
    simp [sizeSum, hs]
    omega

/-- C2: for a registered group with digest list `bs`, if the length-`L`
front run of `bs` is registered under a different key and no longer
proper front run is registered, `_get_blob_group_info` returns that
run's key as the parent and, as unique size, the sum of the sizes of
exactly the suffix digests `bs[L], ..., bs[n-1]`, each counted once. -/
theorem c2_parent_inference (st : StatsState) (bs : List String) (L : Nat)
    (hreg : lookupGroup st (_get_blob_group_key bs) = some bs)
    (hL : L < bs.length)
    (hpreg : (lookupGroup st (_get_blob_group_key (bs.take L))).isSome = true)
    (hpne : _get_blob_group_key (bs.take L) ≠ _get_blob_group_key bs)
    (hnone : ∀ j, j < bs.length → L < j →
        lookupGroup st (_get_blob_group_key (bs.take j)) = none)
    (hsz : ∀ b ∈ bs.drop L, (st.sizes b).isSome = true) :
    _get_blob_group_info st (_get_blob_group_key bs)
      = some (sizeSum st (bs.drop L), some (_get_blob_group_key (bs.take L))) := by
  have hdropfull : (bs.drop L).take (bs.length - L) = bs.drop L := by
    have h := List.length_drop L bs
    rw [← h, List.take_length]
  have hstop : ((_get_blob_group_key (bs.take L) != _get_blob_group_key bs)
      && (lookupGroup st (_get_blob_group_key (bs.take L))).isSome) = true := by
    rw [hpreg, Bool.and_true, bne_iff_ne]
    exact hpne
  have hmid : ∀ k, L < k → k ≤ L + (bs.length - L) →
      ((_get_blob_group_key (bs.take k) != _get_blob_group_key bs)
        && (lookupGroup st (_get_blob_group_key (bs.take k))).isSome) = false := by
    intro k hk1 hk2
    rcases Nat.lt_or_ge k bs.length with hlt | hge
    · rw [hnone k hlt hk1]
      simp
    · have hkeq : k = bs.length := by omega
      subst hkeq
      rw [List.take_length]
      simp
  have hwalk := infoLoop_walk st (_get_blob_group_key bs) bs L hstop
    (bs.length - L) 0 (by omega) hmid
    (by rw [hdropfull]; exact hsz)
  rw [hdropfull] at hwalk
  have hlen : L + (bs.length - L) = bs.length := by omega
  rw [hlen] at hwalk
  simp only [_get_blob_group_info, hreg]
  rw [hwalk, Nat.zero_add]

/-- C2 witness: the claim's own instance — group `[A, B, C]` with sizes
10/20/30 and registered sub-run `[A, B]` yields unique size 30 (just C)
and parent `[A, B]`. -/
theorem c2_parent_inference_witness :
    _get_blob_group_info exSt3 (_get_blob_group_key ["A", "B", "C"])
      = some (30, some "A.B") :=
  c2_parent_inference exSt3 ["A", "B", "C"] 2 (by decide) (by decide)
    (by decide) (by decide) (by decide) (by decide)

/-! ### C3: injectivity of the group key on wellformed digests -/

lemma string_data_inj {a b : String} (h : a.data = b.data) : a = b := by
  cases a; cases b; exact congrArg String.mk h

lemma joinDot_data (l : List String) :
    (joinDot l).data = charJoin (l.map String.data) := by
  induction l with
  | nil => rfl
  | cons x xs ih =>
    cases xs with
    | nil => rfl
    | cons y ys =>
      show (x ++ "." ++ joinDot (y :: ys)).data = _
      have : (x ++ "." ++ joinDot (y :: ys)).data
          = x.data ++ '.' :: (joinDot (y :: ys)).data := by
        show x.data ++ ".".data ++ (joinDot (y :: ys)).data = _
        simp
      rw [this, ih]
      rfl

lemma sepChunk (x1 : List Char) :
    ∀ (x2 r1 r2 : List Char), '.' ∉ x1 → '.' ∉ x2 →
      x1 ++ '.' :: r1 = x2 ++ '.' :: r2 → x1 = x2 ∧ r1 = r2 := by
  induction x1 with
  | nil =>
    intro x2 r1 r2 _ h2 he
    cases x2 with
    | nil => simpa using he
    | cons c x2' =>
      exfalso
      have hc : c = '.' := by
        have := congrArg (fun l => l.head?) he
        simpa using this.symm
      exact h2 (by rw [hc]; exact List.mem_cons_self _ _)
  | cons c x1' ih =>
    intro x2 r1 r2 h1 h2 he
    cases x2 with
    | nil =>
      exfalso
      have hc : c = '.' := by
        have := congrArg (fun l => l.head?) he
        simpa using this
      exact h1 (by rw [hc]; exact List.mem_cons_self _ _)
    | cons c2 x2' =>
      have hcc : c = c2 ∧ x1' ++ '.' :: r1 = x2' ++ '.' :: r2 := by
        simpa using he
      have hrec := ih x2' r1 r2
        (fun hm => h1 (List.mem_cons_of_mem _ hm))
        (fun hm => h2 (List.mem_cons_of_mem _ hm)) hcc.2
      exact ⟨by rw [hcc.1, hrec.1], hrec.2⟩

lemma charJoin_inj (l1 : List (List Char)) :
    ∀ (l2 : List (List Char)),
      (∀ x ∈ l1, x ≠ [] ∧ '.' ∉ x) → (∀ x ∈ l2, x ≠ [] ∧ '.' ∉ x) →
      charJoin l1 = charJoin l2 → l1 = l2 := by
  induction l1 with
  | nil =>
    intro l2 _ h2 he
    cases l2 with
    | nil => rfl
    | cons y ys =>
      exfalso
      cases ys with
      | nil => exact (h2 y (List.mem_cons_self _ _)).1 (by simpa using he.symm)
      | cons z zs =>
        have hlen := congrArg List.length he
        simp [charJoin] at hlen
        omega
  | cons x xs ih =>
    intro l2 h1 h2 he
    cases l2 with
    | nil =>
      exfalso
      cases xs with
      | nil => exact (h1 x (List.mem_cons_self _ _)).1 (by simpa using he)
      | cons w ws =>
        have hlen := congrArg List.length he
        simp [charJoin] at hlen
    | cons y ys =>
      cases xs with
      | nil =>
        cases ys with
        | nil =>
          have : x = y := by simpa [charJoin] using he
          rw [this]
        | cons z zs =>
          exfalso
          have hx : charJoin [x] = x := rfl
          have hmem : '.' ∈ x := by
            rw [hx] at he
            rw [he]
            show '.' ∈ y ++ '.' :: charJoin (z :: zs)
            exact List.mem_append_right _ (List.mem_cons_self _ _)
          exact (h1 x (List.mem_cons_self _ _)).2 hmem
      | cons w ws =>
        cases ys with
        | nil =>
          exfalso
          have hy : charJoin [y] = y := rfl
          have hmem : '.' ∈ y := by
            rw [hy] at he
            rw [← he]
            show '.' ∈ x ++ '.' :: charJoin (w :: ws)
            exact List.mem_append_right _ (List.mem_cons_self _ _)
          exact (h2 y (List.mem_cons_self _ _)).2 hmem
        | cons z zs =>
          have he' : x ++ '.' :: charJoin (w :: ws) = y ++ '.' :: charJoin (z :: zs) := he
          have hsep := sepChunk x y (charJoin (w :: ws)) (charJoin (z :: zs))
            (h1 x (List.mem_cons_self _ _)).2 (h2 y (List.mem_cons_self _ _)).2 he'
          have hrest := ih (z :: zs)
            (fun u hu => h1 u (List.mem_cons_of_mem _ hu))
            (fun u hu => h2 u (List.mem_cons_of_mem _ hu)) hsep.2
          rw [hsep.1, hrest]

/-- C3 as amended: on sequences of wellformed digests — nonempty strings
not containing the join separator `.`, which actual `sha256:<hex>` digest
strings are — the group key is an order-sensitive injection: keys are
equal iff the sequences are equal element- and order-wise (SHA-256 itself
modelled injective, collisions negligible).  Without the wellformedness
restriction this fails (`c3_key_join_collision`). -/
theorem c3_key_injective (s1 s2 : List String)
    (h1 : ∀ d ∈ s1, cleanDigest d = true) (h2 : ∀ d ∈ s2, cleanDigest d = true) :
    (_get_blob_group_key s1 = _get_blob_group_key s2) ↔ s1 = s2 := by
  constructor
  · intro he
    have hclean : ∀ (s : List String), (∀ d ∈ s, cleanDigest d = true) →
        ∀ x ∈ s.map String.data, x ≠ [] ∧ '.' ∉ x := by
      intro s hs x hx
      obtain ⟨d, hd, hdx⟩ := List.mem_map.mp hx
      have := hs d hd
      simp only [cleanDigest, Bool.and_eq_true, Bool.not_eq_true'] at this
      constructor
      · rw [← hdx]
        intro hnil
        rw [hnil] at this
        simp at this
      · rw [← hdx]
        intro hmem
        have hcon : d.data.contains '.' = true := by
          exact List.elem_eq_true_of_mem hmem
        rw [this.2] at hcon
        exact Bool.false_ne_true hcon
    have hd : charJoin (s1.map String.data) = charJoin (s2.map String.data) := by
      rw [← joinDot_data, ← joinDot_data]
      exact congrArg String.data he
    have hmaps := charJoin_inj (s1.map String.data) (s2.map String.data)
      (hclean s1 h1) (hclean s2 h2) hd
    have : Function.Injective String.data := fun a b hab => string_data_inj hab
    exact List.map_injective_iff.mpr this hmaps
  · intro h
    rw [h]

/-- C3 witness: a concrete instance of the amended claim with wellformed
digest strings. -/
theorem c3_key_injective_witness :
    (_get_blob_group_key ["sha256:aa", "sha256:bb"]
        = _get_blob_group_key ["sha256:bb"])
      ↔ (["sha256:aa", "sha256:bb"] = ["sha256:bb"]) :=
  c3_key_injective ["sha256:aa", "sha256:bb"] ["sha256:bb"] (by decide) (by decide)

/-! ### C4 and C5: invariants of the concurrent blob pipeline -/

lemma singleJob_step (s : ScanState) (d : String) (a : ScanAction)
    (h : SingleJob s d) : SingleJob (step s a) d := by
  cases a with
  | tagLayerV1 d' =>
    simp only [step]
    by_cases hg : ((s.info d').isNone && !(s.inprog d')) = true
    · rw [if_pos hg]
      simp only [Bool.and_eq_true, Bool.not_eq_true'] at hg
      unfold SingleJob at h ⊢
      dsimp only
      by_cases hdd : d = d'
      · subst hdd
        rw [hg.2] at h
        simp only [Bool.false_eq_true, if_false] at h
        simp [fbump, fsetB]
        omega
      · simp only [fbump, fsetB, if_neg hdd]
        exact h
    · rw [if_neg hg]
      exact h
  | tagLayerV2 d' sz =>
    simp only [step]
    by_cases hg : ((s.info d').isNone = true)
    · rw [if_pos hg]
      exact h
    · rw [if_neg hg]
      exact h
  | startFetch d' =>
    simp only [step]
    by_cases hg : ((s.queued d' != 0) = true)
    · rw [if_pos hg]
      unfold SingleJob at h ⊢
      dsimp only
      by_cases hdd : d = d'
      · subst hdd
        simp only [bne_iff_ne, ne_eq] at hg
        cases hpr : s.inprog d with
        | false =>
          rw [hpr] at h
          simp only [Bool.false_eq_true, if_false] at h
          omega
        | true =>
          simp [hpr] at h
          simp [fbump, fdec, hpr]
          omega
      · simp only [fbump, fdec, if_neg hdd]
        exact h
    · rw [if_neg hg]
      exact h
  | fetchOk d' sz =>
    simp only [step]
    by_cases hg : ((s.inflight d' != 0) = true)
    · rw [if_pos hg]
      unfold SingleJob at h ⊢
      dsimp only
      by_cases hdd : d = d'
      · subst hdd
        simp only [bne_iff_ne, ne_eq] at hg
        cases hpr : s.inprog d with
        | false =>
          rw [hpr] at h
          simp only [Bool.false_eq_true, if_false] at h
          omega
        | true =>
          simp [hpr] at h
          simp [fbump, fdec, fsetB, fsetI]
          omega
      · simp only [fbump, fdec, fsetB, fsetI, if_neg hdd]
        exact h
    · rw [if_neg hg]
      exact h
  | fetchFail d' =>
    simp only [step]
    by_cases hg : ((s.inflight d' != 0) = true)
    · rw [if_pos hg]
      unfold SingleJob at h ⊢
      dsimp only
      by_cases hdd : d = d'
      · subst hdd
        simp only [bne_iff_ne, ne_eq] at hg
        cases hpr : s.inprog d with
        | false =>
          rw [hpr] at h
          simp only [Bool.false_eq_true, if_false] at h
          omega
        | true =>
          simp [hpr] at h
          simp [fdec, fsetB]
          omega
      · simp only [fdec, fsetB, if_neg hdd]
        exact h
    · rw [if_neg hg]
      exact h

lemma noFailFetchInv_step (s : ScanState) (d : String) (a : ScanAction)
    (hnf : a ≠ ScanAction.fetchFail d) (h : NoFailFetchInv s d) :
    NoFailFetchInv (step s a) d := by
  obtain ⟨h1, h2, h3⟩ := h
  refine ⟨singleJob_step s d a h1, ?_⟩
  cases a with
  | tagLayerV1 d' =>
    simp only [step]
    by_cases hg : ((s.info d').isNone && !(s.inprog d')) = true
    · rw [if_pos hg]
      simp only [Bool.and_eq_true, Bool.not_eq_true'] at hg
      dsimp only
      by_cases hdd : d = d'
      · subst hdd
        unfold SingleJob at h1
        rw [hg.2] at h1
        simp only [Bool.false_eq_true, if_false] at h1
        have hf0 : s.fetches d = s.inflight d := h2 hg.1
        simp [fbump]
        omega
      · simp only [fbump, if_neg hdd]
        exact ⟨h2, h3⟩
    · rw [if_neg hg]
      exact ⟨h2, h3⟩
  | tagLayerV2 d' sz =>
    simp only [step]
    by_cases hg : ((s.info d').isNone = true)
    · rw [if_pos hg]
      dsimp only
      by_cases hdd : d = d'
      · subst hdd
        constructor
        · intro hnone
          simp [fsetI] at hnone
        · exact h3
      · simp only [fsetI, if_neg hdd]
        exact ⟨h2, h3⟩
    · rw [if_neg hg]
      exact ⟨h2, h3⟩
  | startFetch d' =>
    simp only [step]
    by_cases hg : ((s.queued d' != 0) = true)
    · rw [if_pos hg]
      dsimp only
      by_cases hdd : d = d'
      · subst hdd
        simp only [bne_iff_ne, ne_eq] at hg
        constructor
        · intro hnone
          have := h2 hnone
          simp [fbump, fdec]
          omega
        · simp [fbump, fdec]
          omega
      · simp only [fbump, fdec, if_neg hdd]
        exact ⟨h2, h3⟩
    · rw [if_neg hg]
      exact ⟨h2, h3⟩
  | fetchOk d' sz =>
    simp only [step]
    by_cases hg : ((s.inflight d' != 0) = true)
    · rw [if_pos hg]
      dsimp only
      by_cases hdd : d = d'
      · subst hdd
        constructor
        · intro hnone
          simp [fsetI] at hnone
        · exact h3
      · simp only [fbump, fdec, fsetB, fsetI, if_neg hdd]
        exact ⟨h2, h3⟩
    · rw [if_neg hg]
      exact ⟨h2, h3⟩
  | fetchFail d' =>
    by_cases hdd : d = d'
    · exact absurd (by rw [hdd]) hnf
    · simp only [step]
      by_cases hg : ((s.inflight d' != 0) = true)
      · rw [if_pos hg]
        dsimp only
        simp only [fdec, fsetB, if_neg hdd]
        exact ⟨h2, h3⟩
      · rw [if_neg hg]
        exact ⟨h2, h3⟩

lemma v1OnlyInv_step (s : ScanState) (d : String) (a : ScanAction)
    (hv2 : hasTagV2For d a = false) (h : V1OnlyInv s d) :
    V1OnlyInv (step s a) d := by
  obtain ⟨h1, h2, h3⟩ := h
  refine ⟨singleJob_step s d a h1, ?_⟩
  cases a with
  | tagLayerV1 d' =>
    simp only [step]
    by_cases hg : ((s.info d').isNone && !(s.inprog d')) = true
    · rw [if_pos hg]
      simp only [Bool.and_eq_true, Bool.not_eq_true'] at hg
      dsimp only
      by_cases hdd : d = d'
      · subst hdd
        unfold SingleJob at h1
        rw [hg.2] at h1
        simp only [Bool.false_eq_true, if_false] at h1
        have hw0 : s.writes d = 0 := h2 hg.1
        simp [fbump]
        omega
      · simp only [fbump, fsetB, if_neg hdd]
        exact ⟨h2, h3⟩
    · rw [if_neg hg]
      exact ⟨h2, h3⟩
  | tagLayerV2 d' sz =>
    have hdd : ¬ (d = d') := by
      intro hdd
      simp [hasTagV2For, hdd.symm] at hv2
    simp only [step]
    by_cases hg : ((s.info d').isNone = true)
    · rw [if_pos hg]
      dsimp only
      simp only [fbump, fsetI, if_neg hdd]
      exact ⟨h2, h3⟩
    · rw [if_neg hg]
      exact ⟨h2, h3⟩
  | startFetch d' =>
    simp only [step]
    by_cases hg : ((s.queued d' != 0) = true)
    · rw [if_pos hg]
      dsimp only
      by_cases hdd : d = d'
      · subst hdd
        simp only [bne_iff_ne, ne_eq] at hg
        constructor
        · intro hnone
          exact h2 hnone
        · simp [fbump, fdec]
          omega
      · simp only [fbump, fdec, if_neg hdd]
        exact ⟨h2, h3⟩
    · rw [if_neg hg]
      exact ⟨h2, h3⟩
  | fetchOk d' sz =>
    simp only [step]
    by_cases hg : ((s.inflight d' != 0) = true)
    · rw [if_pos hg]
      dsimp only
      by_cases hdd : d = d'
      · subst hdd
        simp only [bne_iff_ne, ne_eq] at hg
        constructor
        · intro hnone
          simp [fsetI] at hnone
        · simp [fbump, fdec]
          omega
      · simp only [fbump, fdec, fsetB, fsetI, if_neg hdd]
        exact ⟨h2, h3⟩
    · rw [if_neg hg]
      exact ⟨h2, h3⟩
  | fetchFail d' =>
    simp only [step]
    by_cases hg : ((s.inflight d' != 0) = true)
    · rw [if_pos hg]
      dsimp only
      by_cases hdd : d = d'
      · subst hdd
        constructor
        · intro hnone
          exact h2 hnone
        · simp [fdec]
          omega
      · simp only [fdec, fsetB, if_neg hdd]
        exact ⟨h2, h3⟩
    · rw [if_neg hg]
      exact ⟨h2, h3⟩

lemma v2OnlyInv_step (s : ScanState) (d : String) (a : ScanAction)
    (hv1 : hasTagV1For d a = false) (h : V2OnlyInv s d) :
    V2OnlyInv (step s a) d := by
  obtain ⟨h1, h2, h3, h4⟩ := h
  unfold V2OnlyInv
  cases a with
  | tagLayerV1 d' =>
    have hdd : ¬ (d = d') := by
      intro hdd
      simp [hasTagV1For, hdd.symm] at hv1
    simp only [step]
    by_cases hg : ((s.info d').isNone && !(s.inprog d')) = true
    · rw [if_pos hg]
      dsimp only
      simp only [fbump, fsetB, if_neg hdd]
      exact ⟨h1, h2, h3, h4⟩
    · rw [if_neg hg]
      exact ⟨h1, h2, h3, h4⟩
  | tagLayerV2 d' sz =>
    simp only [step]
    by_cases hg : ((s.info d').isNone = true)
    · rw [if_pos hg]
      dsimp only
      by_cases hdd : d = d'
      · subst hdd
        have hw0 : s.writes d = 0 := h3 hg
        refine ⟨h1, h2, ?_, ?_⟩
        · intro hnone
          simp [fsetI] at hnone
        · simp [fbump]
          omega
      · simp only [fbump, fsetI, if_neg hdd]
        exact ⟨h1, h2, h3, h4⟩
    · rw [if_neg hg]
      exact ⟨h1, h2, h3, h4⟩
  | startFetch d' =>
    simp only [step]
    by_cases hg : ((s.queued d' != 0) = true)
    · rw [if_pos hg]
      dsimp only
      by_cases hdd : d = d'
      · subst hdd
        simp only [bne_iff_ne, ne_eq] at hg
        exact absurd h1 hg
      · simp only [fbump, fdec, if_neg hdd]
        exact ⟨h1, h2, h3, h4⟩
    · rw [if_neg hg]
      exact ⟨h1, h2, h3, h4⟩
  | fetchOk d' sz =>
    simp only [step]
    by_cases hg : ((s.inflight d' != 0) = true)
    · rw [if_pos hg]
      dsimp only
      by_cases hdd : d = d'
      · subst hdd
        simp only [bne_iff_ne, ne_eq] at hg
        exact absurd h2 hg
      · simp only [fbump, fdec, fsetB, fsetI, if_neg hdd]
        exact ⟨h1, h2, h3, h4⟩
    · rw [if_neg hg]
      exact ⟨h1, h2, h3, h4⟩
  | fetchFail d' =>
    simp only [step]
    by_cases hg : ((s.inflight d' != 0) = true)
    · rw [if_pos hg]
      dsimp only
      by_cases hdd : d = d'
      · subst hdd
        simp only [bne_iff_ne, ne_eq] at hg
        exact absurd h2 hg
      · simp only [fdec, fsetB, if_neg hdd]
        exact ⟨h1, h2, h3, h4⟩
    · rw [if_neg hg]
      exact ⟨h1, h2, h3, h4⟩

lemma adds_eq_writes_step (s : ScanState) (d : String) (a : ScanAction)
    (h : s.adds d = s.writes d) : (step s a).adds d = (step s a).writes d := by
  cases a <;> simp only [step] <;> split_ifs <;> simp [fbump, h]

lemma singleJob_run (t : List ScanAction) (d : String) :
    SingleJob (runTrace t) d := by
  have hgen : ∀ (u : List ScanAction) (s : ScanState),
      SingleJob s d → SingleJob (u.foldl step s) d := by
    intro u
    induction u with
    | nil => intro s hs; exact hs
    | cons a u ih => intro s hs; exact ih _ (singleJob_step s d a hs)
  exact hgen t scanInit (by simp [SingleJob, scanInit])

lemma noFailFetchInv_run (t : List ScanAction) (d : String)
    (hf : ∀ a ∈ t, a ≠ ScanAction.fetchFail d) :
    NoFailFetchInv (runTrace t) d := by
  have hgen : ∀ (u : List ScanAction) (s : ScanState),
      (∀ a ∈ u, a ≠ ScanAction.fetchFail d) →
      NoFailFetchInv s d → NoFailFetchInv (u.foldl step s) d := by
    intro u
    induction u with
    | nil => intro s _ hs; exact hs
    | cons a u ih =>
      intro s hu hs
      exact ih _ (fun b hb => hu b (List.mem_cons_of_mem _ hb))
        (noFailFetchInv_step s d a (hu a (List.mem_cons_self _ _)) hs)
  exact hgen t scanInit hf
    (by refine ⟨by simp [SingleJob, scanInit], by simp [scanInit], by simp [scanInit]⟩)

lemma v1OnlyInv_run (t : List ScanAction) (d : String)
    (hv : ∀ a ∈ t, hasTagV2For d a = false) :
    V1OnlyInv (runTrace t) d := by
  have hgen : ∀ (u : List ScanAction) (s : ScanState),
      (∀ a ∈ u, hasTagV2For d a = false) →
      V1OnlyInv s d → V1OnlyInv (u.foldl step s) d := by
    intro u
    induction u with
    | nil => intro s _ hs; exact hs
    | cons a u ih =>
      intro s hu hs
      exact ih _ (fun b hb => hu b (List.mem_cons_of_mem _ hb))
        (v1OnlyInv_step s d a (hu a (List.mem_cons_self _ _)) hs)
  exact hgen t scanInit hv
    (by refine ⟨by simp [SingleJob, scanInit], by simp [scanInit], by simp [scanInit]⟩)

lemma v2OnlyInv_run (t : List ScanAction) (d : String)
    (hv : ∀ a ∈ t, hasTagV1For d a = false) :
    V2OnlyInv (runTrace t) d := by
  have hgen : ∀ (u : List ScanAction) (s : ScanState),
      (∀ a ∈ u, hasTagV1For d a = false) →
      V2OnlyInv s d → V2OnlyInv (u.foldl step s) d := by
    intro u
    induction u with
    | nil => intro s _ hs; exact hs
    | cons a u ih =>
      intro s hu hs
      exact ih _ (fun b hb => hu b (List.mem_cons_of_mem _ hb))
        (v2OnlyInv_step s d a (hu a (List.mem_cons_self _ _)) hs)
  exact hgen t scanInit hv (by simp [V2OnlyInv, scanInit])

lemma adds_eq_writes_run (t : List ScanAction) (d : String) :
    (runTrace t).adds d = (runTrace t).writes d := by
  have hgen : ∀ (u : List ScanAction) (s : ScanState),
      s.adds d = s.writes d → (u.foldl step s).adds d = (u.foldl step s).writes d := by
    intro u
    induction u with
    | nil => intro s hs; exact hs
    | cons a u ih => intro s hs; exact ih _ (adds_eq_writes_step s d a hs)
  exact hgen t scanInit rfl

/-- C4 as amended: over every interleaving, at most one fetch per digest
is in flight at any time; and `get_blob_info` is invoked at most once per
digest provided no fetch for that digest fails — after a failed fetch the
`finally` clause clears the in-progress mark and a later schema-1 tag job
may legitimately trigger a second fetch (`c4_refetch_after_failed_fetch`). -/
theorem c4_single_flight (t : List ScanAction) (d : String) :
    (runTrace t).inflight d ≤ 1
      ∧ (ScanAction.fetchFail d ∉ t → (runTrace t).fetches d ≤ 1) := by
  constructor
  · have h := singleJob_run t d
    unfold SingleJob at h
    cases hpr : (runTrace t).inprog d <;> rw [hpr] at h <;> simp at h <;> omega
  · intro hf
    obtain ⟨h1, h2, h3⟩ := noFailFetchInv_run t d (fun a ha => fun he => hf (he ▸ ha))
    omega

/-- C5 as amended: for a digest referenced under a single manifest schema
version throughout the scan (no schema-2 layer for it, or no schema-1
layer for it), `info` is written at most once — it transitions `None` →
populated and is never overwritten — and its size is added to the running
total at most once.  With mixed schema versions this fails
(`c5_mixed_schema_double_write`). -/
theorem c5_info_written_at_most_once (t : List ScanAction) (d : String)
    (h : (t.all fun a => !hasTagV2For d a) = true
        ∨ (t.all fun a => !hasTagV1For d a) = true) :
    (runTrace t).writes d ≤ 1 ∧ (runTrace t).adds d ≤ 1 := by
  have hw : (runTrace t).writes d ≤ 1 := by
    rcases h with hv2 | hv1
    · have hmem : ∀ a ∈ t, hasTagV2For d a = false := by
        intro a ha
        have := (List.all_eq_true.mp hv2) a ha
        simpa using this
      obtain ⟨h1, h2, h3⟩ := v1OnlyInv_run t d hmem
      omega
    · have hmem : ∀ a ∈ t, hasTagV1For d a = false := by
        intro a ha
        have := (List.all_eq_true.mp hv1) a ha
        simpa using this
      obtain ⟨h1, h2, h3, h4⟩ := v2OnlyInv_run t d hmem
      omega
  exact ⟨hw, by rw [adds_eq_writes_run]; exact hw⟩

/-- C4 witness: a concrete failure-free trace instantiating both parts of
the amended claim. -/
theorem c4_single_flight_witness :
    (runTrace traceSimple).inflight "x" ≤ 1
      ∧ (runTrace traceSimple).fetches "x" ≤ 1 :=
  ⟨(c4_single_flight traceSimple "x").1,
   (c4_single_flight traceSimple "x").2 (by decide)⟩

/-- C5 witness: a concrete schema-2-only trace referencing the digest
twice still writes `info` and adds the size at most once. -/
theorem c5_info_written_at_most_once_witness :
    (runTrace traceV2Twice).writes "x" ≤ 1
      ∧ (runTrace traceV2Twice).adds "x" ≤ 1 :=
  c5_info_written_at_most_once traceV2Twice "x" (Or.inr (by decide))

/-! ### C6: the parent-chain walk emits at most one edge -/

/-- C6 as amended: for every group processed by the aggregation loop of
`get_stats`, exactly one chain-edge triple is emitted when the group has
a parent — the edge to its immediate parent — and none when it has no
parent; the `while` walk never follows the chain further because of the
unconditional `break` after the first edge. -/
theorem c6_one_edge_per_group (st : StatsState) (nameOf : String → String)
    (gh : InstanceHelper) (k : String) (g : GroupEmit)
    (h : processGroup st nameOf gh k = some g) :
    g.chainEdges.length =
      match _get_blob_group_info st k with
      | some (_, some _) => 1
      | _ => 0 := by
  unfold processGroup at h
  rcases hi : _get_blob_group_info st k with _ | ⟨u, pk0⟩
  · rw [hi] at h
    exact absurd h (by simp)
  · rw [hi] at h
    rcases pk0 with _ | pk
    · dsimp only at h
      injection h with h
      rw [← h]
      rfl
    · dsimp only at h
      rcases hp : _get_blob_group_info st pk with _ | ⟨u2, pk2⟩
      · rw [hp] at h
        exact absurd h (by simp)
      · rw [hp] at h
        dsimp only at h
        injection h with h
        rw [← h]
        rfl

/-- C6 witness: the group `[A, B, C]` of the three-group chain, whose
emission has exactly one chain edge. -/
theorem c6_one_edge_per_group_witness :
    (⟨[("A.B_0", some "A.B.C_0", 20)], ("A.B.C_0", some "root", 20), 30,
        ⟨[("A.B", 1), ("A.B.C", 1)]⟩⟩ : GroupEmit).chainEdges.length
      = match _get_blob_group_info exSt3 (_get_blob_group_key ["A", "B", "C"]) with
        | some (_, some _) => 1
        | _ => 0 :=
  c6_one_edge_per_group exSt3 (fun n => n) ⟨[]⟩
    (_get_blob_group_key ["A", "B", "C"]) _ (by decide)

/-! ### C9: NAME_UNKNOWN terminates tag pagination cleanly -/

/-- C9: whenever a tag-listing page body (the pager's URL path ends in
`/tags/list`) carries an `errors` list whose first entry has code
`NAME_UNKNOWN`, `__anext__` raises `StopAsyncIteration` — the async
iteration protocol's clean, successful termination — rather than
propagating an error to the consumer. -/
theorem c9_name_unknown_stops_iteration (urlPath : String) (b : PageBatch)
    (e : ErrorEntry) (rest : List ErrorEntry)
    (he : b.errors = e :: rest) (hc : e.code = some "NAME_UNKNOWN")
    (hp : pyEndsWith urlPath "/tags/list" = true) :
    pagerAnext urlPath b = AnextOutcome.stopIteration := by
  unfold pagerAnext
  rw [he]
  dsimp only
  rw [hc, hp]
  simp

/-- C9 witness: a concrete unknown-repository error body on the tag-list
URL ends the iteration. -/
theorem c9_name_unknown_witness :
    pagerAnext "/v2/app/tags/list" ⟨[⟨some "NAME_UNKNOWN"⟩], none⟩
      = AnextOutcome.stopIteration :=
  c9_name_unknown_stops_iteration "/v2/app/tags/list"
    ⟨[⟨some "NAME_UNKNOWN"⟩], none⟩ ⟨some "NAME_UNKNOWN"⟩ [] rfl rfl (by decide)

/-! ### C10: the report-emission step always raises -/

/-- C10: for a completed scan with at least one image (so the first
image's `img_data` is computable from the populated indices), the
reporting phase of `get_stats` always fails with a `TypeError`: it calls
`get_treemap` with four positional arguments while `get_treemap` is
defined with exactly two parameters, so the first per-image rendering
call raises and no output is produced. -/
theorem c10_report_emission_always_fails (st : StatsState)
    (nameOf : String → String) (gh : InstanceHelper)
    (img : String) (gkeys : List String) (rest : List (String × List String))
    (hbuilt : (buildImgData st nameOf gh gkeys).isSome = true) :
    get_stats_render st nameOf ((img, gkeys) :: rest) gh
      = Except.error PyErr.typeError := by
  unfold get_stats_render
  obtain ⟨r, hr⟩ := Option.isSome_iff_exists.mp hbuilt
  rw [hr]
  rfl

/-- C10 witness: a one-image registry renders nothing: the first
`get_treemap` call raises `TypeError`. -/
theorem c10_report_emission_always_fails_witness :
    get_stats_render exSt3 (fun n => n) [("app", [])] ⟨[]⟩
      = Except.error PyErr.typeError :=
  c10_report_emission_always_fails exSt3 (fun n => n) ⟨[]⟩ "app" [] [] (by decide)
